import Mathlib

/-!
Shallow embedding of `src/System/ComponentModel/observable_property.rs`
(crate `mvvm`): the generic `ObservableProperty<T>` cell, its
equality-gated write (`SetProperty`, with public wrappers `SetValue` and
`set`), its readers (`GetValue`, `get`), and its two notification
channels `PropertyChanging` and `PropertyChanged`.

The channels are values of `event_rs::Event`, an external crate whose
source is not part of this repository; the channel behaviour (an ordered
multicast callback registry: `add` appends, `invoke` calls every listener
in subscription order, a listener error aborts the remaining listeners)
is modelled from the specification of the Notification Channel.

Listeners in the source are arbitrary caller-supplied closures that
receive a reference to the cell (so they observe the current value via
`get()`) and may mutate caller-owned external state.  Lean functions
cannot re-enter the interpreter that runs them, so listeners are embedded
as a small action language `Listener T σ` over an external state `σ`:
pure observers (`record`), a listener that raises an error (`fail`), and
re-entrant listeners that call `set` on the same cell (`setCell`,
`setCellOnce`).  Execution also emits a trace of channel-invocation
events so that firing order is a provable proposition.

Re-entrant writes recurse; the recursion is bounded by an explicit
nesting-depth argument on `SetProperty` (an artefact of the embedding:
depth 0 already covers every cell without re-entrant listeners, and a
separate `fuelOut` outcome distinguishes depth exhaustion from a
listener error).
-/

namespace Mvvm

/-- Action language for caller-supplied listener closures over external
state `σ`: `record f` reads the cell's current value and updates `σ`,
`fail` raises an error, `setCell v` re-entrantly calls `set v` on the
owning cell, and `setCellOnce v armed disarm` does so only when the
external flag `armed` is set, clearing it first (a guarded re-entrant
closure). -/
inductive Listener (T σ : Type) where
  | record (f : T → σ → σ)
  | fail
  | setCell (v : T)
  | setCellOnce (v : T) (armed : σ → Bool) (disarm : σ → σ)

/-- Trace events: one `changing` event per `PropertyChanging.invoke` and
one `changed` event per `PropertyChanged.invoke`, each carrying the
value a listener would observe via `get()` at that invocation. -/
inductive Ev (T : Type) where
  | changing (observed : T)
  | changed (observed : T)
deriving DecidableEq

/-- The cell of `observable_property.rs`: one value plus the two event
channels, each an ordered sequence of listeners. -/
structure ObservableProperty (T σ : Type) where
  value : T
  PropertyChanged : List (Listener T σ)
  PropertyChanging : List (Listener T σ)

/-- Outcome of a write: `ok changed cell s tr` is normal completion with
the boolean returned by `SetProperty`, `err cell s tr` is a listener
error propagating out (carrying the cell and external state at the point
the listener raised), `fuelOut` is exhaustion of the embedding's
re-entrancy depth. -/
inductive SetResult (T σ : Type) where
  | ok (changed : Bool) (cell : ObservableProperty T σ) (s : σ) (tr : List (Ev T))
  | err (cell : ObservableProperty T σ) (s : σ) (tr : List (Ev T))
  | fuelOut

/-- Outcome of invoking a channel's listener sequence. -/
inductive InvokeResult (T σ : Type) where
  | ok (cell : ObservableProperty T σ) (s : σ) (tr : List (Ev T))
  | err (cell : ObservableProperty T σ) (s : σ) (tr : List (Ev T))
  | fuelOut

/-- Modelled from the spec: `subscribe`/`add` of the Notification
Channel (`event_rs::Event::add`, source not in this repository) appends
the listener to the ordered sequence, with no uniqueness check. -/
def Event.add {T σ : Type} (ls : List (Listener T σ)) (l : Listener T σ) :
    List (Listener T σ) :=
  ls ++ [l]

/-- Modelled from the spec: `invoke` of the Notification Channel
(`event_rs::Event::invoke`, source not in this repository) calls every
listener in subscription order, passing a reference to the owning cell;
an error raised by a listener propagates and the remaining listeners are
not called.  `doSet` is the write operation a re-entrant listener runs
(the interpreter one nesting level down). -/
def invoke {T σ : Type}
    (doSet : ObservableProperty T σ → T → σ → List (Ev T) → SetResult T σ) :
    List (Listener T σ) → ObservableProperty T σ → σ → List (Ev T) →
    InvokeResult T σ
  | [], cell, s, tr => .ok cell s tr
  | .record f :: rest, cell, s, tr => invoke doSet rest cell (f cell.value s) tr
  | .fail :: _, cell, s, tr => .err cell s tr
  | .setCell v :: rest, cell, s, tr =>
    match doSet cell v s tr with
    | .ok _ c2 s2 tr2 => invoke doSet rest c2 s2 tr2
    | .err c2 s2 tr2 => .err c2 s2 tr2
    | .fuelOut => .fuelOut
  | .setCellOnce v armed disarm :: rest, cell, s, tr =>
    if armed s then
      match doSet cell v (disarm s) tr with
      | .ok _ c2 s2 tr2 => invoke doSet rest c2 s2 tr2
      | .err c2 s2 tr2 => .err c2 s2 tr2
      | .fuelOut => .fuelOut
    else invoke doSet rest cell s tr

/-- `OnPropertyChanging`: invokes the `PropertyChanging` event on the
cell itself. -/
def OnPropertyChanging {T σ : Type}
    (doSet : ObservableProperty T σ → T → σ → List (Ev T) → SetResult T σ)
    (cell : ObservableProperty T σ) (s : σ) (tr : List (Ev T)) :
    InvokeResult T σ :=
  invoke doSet cell.PropertyChanging cell s tr

/-- `OnPropertyChanged`: invokes the `PropertyChanged` event on the cell
itself. -/
def OnPropertyChanged {T σ : Type}
    (doSet : ObservableProperty T σ → T → σ → List (Ev T) → SetResult T σ)
    (cell : ObservableProperty T σ) (s : σ) (tr : List (Ev T)) :
    InvokeResult T σ :=
  invoke doSet cell.PropertyChanged cell s tr

/-- One unfolding of `SetProperty` from the source: compare the current
and new values; if equal return `false` touching nothing; otherwise
raise `PropertyChanging` (old value still stored), overwrite the value,
raise `PropertyChanged` (new value stored), return `true`.  A trace
event is emitted at each channel invocation, carrying the stored value
observable at that point.  `doSet` is the write a re-entrant listener
performs. -/
def setStep {T σ : Type} [DecidableEq T]
    (doSet : ObservableProperty T σ → T → σ → List (Ev T) → SetResult T σ)
    (cell : ObservableProperty T σ) (v : T) (s : σ) (tr : List (Ev T)) :
    SetResult T σ :=
  if cell.value = v then .ok false cell s tr
  else
    match OnPropertyChanging doSet cell s (tr ++ [.changing cell.value]) with
    | .ok c1 s1 tr1 =>
      match OnPropertyChanged doSet { c1 with value := v } s1
          (tr1 ++ [.changed v]) with
      | .ok c3 s2 tr2 => .ok true c3 s2 tr2
      | .err c3 s2 tr2 => .err c3 s2 tr2
      | .fuelOut => .fuelOut
    | .err c1 s1 tr1 => .err c1 s1 tr1
    | .fuelOut => .fuelOut

/-- A write operation that is out of nesting budget (used as `doSet` at
depth 0; never reached by a cell without re-entrant listeners). -/
def noFuel {T σ : Type} :
    ObservableProperty T σ → T → σ → List (Ev T) → SetResult T σ :=
  fun _ _ _ _ => .fuelOut

/-- `SetProperty` from the source, with an explicit re-entrancy depth
`d`: a re-entrant `set` performed by a listener runs the interpreter at
depth `d - 1`.  Depth 0 is already complete for every cell whose
listeners never call `set`. -/
def SetProperty {T σ : Type} [DecidableEq T] :
    Nat → ObservableProperty T σ → T → σ → List (Ev T) → SetResult T σ
  | 0, cell, v, s, tr => setStep noFuel cell v s tr
  | d + 1, cell, v, s, tr => setStep (SetProperty d) cell v s tr

/-- `SetValue` from the source: delegates to `SetProperty`. -/
def SetValue {T σ : Type} [DecidableEq T] (d : Nat)
    (cell : ObservableProperty T σ) (v : T) (s : σ) (tr : List (Ev T)) :
    SetResult T σ :=
  SetProperty d cell v s tr

/-- `set` from the source: delegates to `SetValue`. -/
def set {T σ : Type} [DecidableEq T] (d : Nat)
    (cell : ObservableProperty T σ) (v : T) (s : σ) (tr : List (Ev T)) :
    SetResult T σ :=
  SetValue d cell v s tr

/-- `GetValue` from the source: a reference to the current value. -/
def GetValue {T σ : Type} (cell : ObservableProperty T σ) : T :=
  cell.value

/-- `get` from the source: a clone of the current value (cloning is the
identity in the embedding). -/
def get {T σ : Type} (cell : ObservableProperty T σ) : T :=
  GetValue cell

/-- `ObservableProperty::default()` (the derived `Default`
implementation): every field takes its default, so the value is `T`'s
default and both channels are the empty `Event`. -/
def defaultObs {T σ : Type} [Inhabited T] : ObservableProperty T σ :=
  { value := default, PropertyChanged := [], PropertyChanging := [] }

/-- `new` from the source: the given initial value, every other field
from `..Default::default()`. -/
def new {T σ : Type} [Inhabited T] (v : T) : ObservableProperty T σ :=
  { defaultObs with value := v }

/-- A listener is a pure observer (`record`): it reads the cell and
updates only external state. -/
def isRecord {T σ : Type} : Listener T σ → Bool
  | .record _ => true
  | _ => false

/-- External-state effect of running a sequence of `record` listeners
that all observe the value `obs`. -/
def applyRecords {T σ : Type} (ls : List (Listener T σ)) (obs : T) (s : σ) :
    σ :=
  ls.foldl (fun acc l => match l with | .record f => f obs acc | _ => acc) s

/-- A write outcome is a normal completion. -/
def SetResult.isOk {T σ : Type} : SetResult T σ → Bool
  | .ok _ _ _ _ => true
  | _ => false

lemma invoke_records {T σ : Type}
    (doSet : ObservableProperty T σ → T → σ → List (Ev T) → SetResult T σ)
    (ls : List (Listener T σ)) (h : ls.all isRecord = true)
    (cell : ObservableProperty T σ) (s : σ) (tr : List (Ev T)) :
    invoke doSet ls cell s tr = .ok cell (applyRecords ls cell.value s) tr := by
  induction ls generalizing s with
  | nil => rfl
  | cons l rest ih =>
    cases l with
    | record f =>
      simp only [List.all_cons, Bool.and_eq_true] at h
      show invoke doSet rest cell (f cell.value s) tr = _
      rw [ih h.2]
      rfl
    | fail => simp [List.all_cons, isRecord] at h
    | setCell v => simp [List.all_cons, isRecord] at h
    | setCellOnce v armed disarm => simp [List.all_cons, isRecord] at h

lemma SetProperty_unfold {T σ : Type} [DecidableEq T] (d : Nat)
    (cell : ObservableProperty T σ) (v : T) (s : σ) (tr : List (Ev T)) :
    SetProperty d cell v s tr =
      setStep (match d with | 0 => noFuel | d + 1 => SetProperty d)
        cell v s tr := by
  cases d <;> rfl

lemma setStep_records {T σ : Type} [DecidableEq T]
    (doSet : ObservableProperty T σ → T → σ → List (Ev T) → SetResult T σ)
    (cell : ObservableProperty T σ) (v : T) (s : σ) (tr : List (Ev T))
    (h1 : cell.PropertyChanging.all isRecord = true)
    (h2 : cell.PropertyChanged.all isRecord = true)
    (hne : cell.value ≠ v) :
    setStep doSet cell v s tr =
      .ok true { cell with value := v }
        (applyRecords cell.PropertyChanged v
          (applyRecords cell.PropertyChanging cell.value s))
        (tr ++ [.changing cell.value, .changed v]) := by
  rw [setStep, if_neg hne, OnPropertyChanging, invoke_records doSet _ h1]
  show (match OnPropertyChanged doSet { cell with value := v } _ _ with
    | .ok c3 s2 tr2 => SetResult.ok true c3 s2 tr2
    | .err c3 s2 tr2 => .err c3 s2 tr2
    | .fuelOut => .fuelOut) = _
  rw [OnPropertyChanged, invoke_records doSet _ h2]
  simp

lemma SetProperty_records {T σ : Type} [DecidableEq T] (d : Nat)
    (cell : ObservableProperty T σ) (v : T) (s : σ) (tr : List (Ev T))
    (h1 : cell.PropertyChanging.all isRecord = true)
    (h2 : cell.PropertyChanged.all isRecord = true)
    (hne : cell.value ≠ v) :
    SetProperty d cell v s tr =
      .ok true { cell with value := v }
        (applyRecords cell.PropertyChanged v
          (applyRecords cell.PropertyChanging cell.value s))
        (tr ++ [.changing cell.value, .changed v]) := by
  cases d with
  | zero => exact setStep_records noFuel cell v s tr h1 h2 hne
  | succ d => exact setStep_records (SetProperty d) cell v s tr h1 h2 hne

/-- C2: a write of a value equal to the stored one returns `false`,
fires neither channel (external state and trace unchanged), and leaves
the cell untouched. -/
theorem set_equal_is_noop {T σ : Type} [DecidableEq T] (d : Nat)
    (cell : ObservableProperty T σ) (v : T) (s : σ) (tr : List (Ev T))
    (heq : cell.value = v) :
    SetProperty d cell v s tr = .ok false cell s tr := by
  cases d with
  | zero => rw [SetProperty, setStep, if_pos heq]
  | succ d => rw [SetProperty, setStep, if_pos heq]

/-- Witness for C2: the spec's concrete scenario, a cell holding `5`
written with `5`: the write returns `false`, the value stays `5`, the
external accumulator and the trace stay empty. -/
theorem set_equal_is_noop_witness :
    SetProperty 0 (⟨5, [], []⟩ : ObservableProperty Nat Nat) 5 0 [] =
      .ok false ⟨5, [], []⟩ 0 [] :=
  set_equal_is_noop 0 ⟨5, [], []⟩ 5 0 [] rfl

/-- C3: `new v` holds `v` (observable through both `get` and
`GetValue`) and both channels have no subscribers. -/
theorem new_holds_value_with_empty_channels {T σ : Type} [Inhabited T]
    (v : T) :
    get (new v : ObservableProperty T σ) = v ∧
    GetValue (new v : ObservableProperty T σ) = v ∧
    (new v : ObservableProperty T σ).PropertyChanging = [] ∧
    (new v : ObservableProperty T σ).PropertyChanged = [] :=
  ⟨rfl, rfl, rfl, rfl⟩

/-- C7: the derived default construction equals `new` applied to `T`'s
default value, so the two cells are one and the same state and every
subsequent operation behaves identically on them. -/
theorem default_equals_new_default {T σ : Type} [Inhabited T]
    [DecidableEq T] :
    (defaultObs : ObservableProperty T σ) = new default ∧
    (∀ (d : Nat) (v : T) (s : σ) (tr : List (Ev T)),
      SetProperty d (defaultObs : ObservableProperty T σ) v s tr =
        SetProperty d (new default) v s tr) ∧
    get (defaultObs : ObservableProperty T σ) =
      get (new default : ObservableProperty T σ) :=
  ⟨rfl, fun _ _ _ _ => rfl, rfl⟩

/-- C10: the three write entry points agree — `set` and `SetValue` are
the same function as the internal `SetProperty`, returning the same
boolean, producing the same listener invocations and trace, and leaving
the same final state. -/
theorem set_SetValue_SetProperty_agree {T σ : Type} [DecidableEq T]
    (d : Nat) (cell : ObservableProperty T σ) (v : T) (s : σ)
    (tr : List (Ev T)) :
    set d cell v s tr = SetProperty d cell v s tr ∧
    SetValue d cell v s tr = SetProperty d cell v s tr :=
  ⟨rfl, rfl⟩

/-- The cell of the source's `test_observable_property`: initial value
`0`, a `PropertyChanging` listener adding `1 <<< get()` to a shared
accumulator, and a `PropertyChanged` listener doing the same. -/
def testCell : ObservableProperty Nat Nat :=
  { value := 0,
    PropertyChanged := [.record (fun obs acc => acc + (1 <<< obs))],
    PropertyChanging := [.record (fun obs acc => acc + (1 <<< obs))] }

/-- C6: in the source's test scenario, `set 2` on `testCell` with the
accumulator at `0` returns `true`, leaves the accumulator at
`(1 <<< 0) + (1 <<< 2) = 5`, fires changing (observing `0`) then
changed (observing `2`), and `get` afterwards returns `2`. -/
theorem test_observable_property_scenario :
    SetProperty 0 testCell 2 0 [] =
      .ok true { testCell with value := 2 } 5 [.changing 0, .changed 2] ∧
    get { testCell with value := 2 } = 2 :=
  ⟨rfl, rfl⟩

/-- C1: writing a differing value to a cell whose listeners are pure
observers returns `true`, fires exactly one changing invocation followed
by exactly one changed invocation (the trace grows by exactly those two
events, in that order), the changing listeners observe the old stored
value and the changed listeners observe the new one (the `applyRecords`
observation arguments), and the cell ends up holding the new value with
its channels intact. -/
theorem set_differing_fires_changing_then_changed {T σ : Type}
    [DecidableEq T] (d : Nat) (cell : ObservableProperty T σ) (v : T)
    (s : σ) (tr : List (Ev T))
    (h1 : cell.PropertyChanging.all isRecord = true)
    (h2 : cell.PropertyChanged.all isRecord = true)
    (hne : cell.value ≠ v) :
    SetProperty d cell v s tr =
      .ok true { cell with value := v }
        (applyRecords cell.PropertyChanged v
          (applyRecords cell.PropertyChanging cell.value s))
        (tr ++ [.changing cell.value, .changed v]) := by
  rw [SetProperty_unfold]
  exact setStep_records _ cell v s tr h1 h2 hne

/-- Witness for C1: a cell holding `1` with one changing listener
(adding ten times the observed value) and one changed listener (adding
the observed value); `set 2` returns `true`, the accumulator ends at
`10 * 1 + 2 = 12`, and the trace is one changing event observing `1`
followed by one changed event observing `2`. -/
theorem set_differing_fires_witness :
    SetProperty 0
      (⟨1, [.record fun obs acc => acc + obs],
        [.record fun obs acc => acc + 10 * obs]⟩ :
        ObservableProperty Nat Nat) 2 0 [] =
      .ok true
        ⟨2, [.record fun obs acc => acc + obs],
          [.record fun obs acc => acc + 10 * obs]⟩
        12 [.changing 1, .changed 2] :=
  set_differing_fires_changing_then_changed 0 _ 2 0 [] rfl rfl
    (by decide)

/-- A listener that appends the tag `t` to a shared ordered log. -/
def tagListener {T α : Type} (t : α) : Listener T (List α) :=
  .record (fun _ log => log ++ [t])

lemma foldl_event_add {T σ : Type} (news : List (Listener T σ)) :
    ∀ ls : List (Listener T σ),
      List.foldl Event.add ls news = ls ++ news := by
  induction news with
  | nil => intro ls; simp
  | cons l rest ih =>
    intro ls
    show List.foldl Event.add (ls ++ [l]) rest = _
    rw [ih]
    simp

lemma tagListeners_all_isRecord {T α : Type} (tags : List α) :
    ((tags.map tagListener).all (isRecord (T := T)) = true) := by
  induction tags with
  | nil => rfl
  | cons t rest ih => simp [tagListener, isRecord, ih]

lemma applyRecords_tagListeners {T α : Type} (tags : List α) (obs : T) :
    ∀ log0, applyRecords (tags.map tagListener) obs log0 = log0 ++ tags := by
  induction tags with
  | nil => intro log0; simp [applyRecords]
  | cons t rest ih =>
    intro log0
    show applyRecords (rest.map tagListener) obs (log0 ++ [t]) = _
    rw [ih]
    simp

/-- C4: a cell whose changing channel was built by subscribing, in
order, one tag-recording listener per element of `tags` (folding the
channel's `add`): a differing write invokes every subscribed listener
and the shared log grows by exactly `tags` — invocation order equals
subscription order. -/
theorem listeners_invoked_in_subscription_order {T α : Type}
    [DecidableEq T] (d : Nat) (tags : List α) (v1 v2 : T)
    (log0 : List α) (tr : List (Ev T)) (hne : v1 ≠ v2) :
    SetProperty d
      { value := v1, PropertyChanged := [],
        PropertyChanging := List.foldl Event.add [] (tags.map tagListener) }
      v2 log0 tr =
      .ok true
        { value := v2, PropertyChanged := [],
          PropertyChanging :=
            List.foldl Event.add [] (tags.map tagListener) }
        (log0 ++ tags) (tr ++ [.changing v1, .changed v2]) := by
  rw [foldl_event_add, List.nil_append]
  rw [SetProperty_records d _ v2 log0 tr (tagListeners_all_isRecord tags)
    List.all_nil hne]
  rw [applyRecords_tagListeners]
  rfl

/-- Witness for C4: two listeners tagging `10` then `20`, subscribed in
that order to a cell holding `0`; `set 1` logs `[10, 20]` — the
subscription order. -/
lemma invoke_fail_truncates {T σ : Type}
    (doSet : ObservableProperty T σ → T → σ → List (Ev T) → SetResult T σ)
    (pre : List (Listener T σ)) (hpre : pre.all isRecord = true)
    (post : List (Listener T σ)) (cell : ObservableProperty T σ) (s : σ)
    (tr : List (Ev T)) :
    invoke doSet (pre ++ .fail :: post) cell s tr =
      .err cell (applyRecords pre cell.value s) tr := by
  induction pre generalizing s with
  | nil => rfl
  | cons l rest ih =>
    cases l with
    | record f =>
      simp only [List.all_cons, Bool.and_eq_true] at hpre
      show invoke doSet (rest ++ .fail :: post) cell (f cell.value s) tr = _
      rw [ih hpre.2]
      rfl
    | fail => simp [List.all_cons, isRecord] at hpre
    | setCell v => simp [List.all_cons, isRecord] at hpre
    | setCellOnce v armed disarm => simp [List.all_cons, isRecord] at hpre

lemma setStep_fail_changing {T σ : Type} [DecidableEq T]
    (doSet : ObservableProperty T σ → T → σ → List (Ev T) → SetResult T σ)
    (cell : ObservableProperty T σ) (v : T) (s : σ) (tr : List (Ev T))
    (pre post : List (Listener T σ))
    (hch : cell.PropertyChanging = pre ++ .fail :: post)
    (hpre : pre.all isRecord = true) (hne : cell.value ≠ v) :
    setStep doSet cell v s tr =
      .err cell (applyRecords pre cell.value s)
        (tr ++ [.changing cell.value]) := by
  rw [setStep, if_neg hne, OnPropertyChanging, hch,
    invoke_fail_truncates doSet pre hpre]

lemma setStep_fail_changed {T σ : Type} [DecidableEq T]
    (doSet : ObservableProperty T σ → T → σ → List (Ev T) → SetResult T σ)
    (cell : ObservableProperty T σ) (v : T) (s : σ) (tr : List (Ev T))
    (pre post : List (Listener T σ))
    (h1 : cell.PropertyChanging.all isRecord = true)
    (hch : cell.PropertyChanged = pre ++ .fail :: post)
    (hpre : pre.all isRecord = true) (hne : cell.value ≠ v) :
    setStep doSet cell v s tr =
      .err { cell with value := v }
        (applyRecords pre v (applyRecords cell.PropertyChanging cell.value s))
        (tr ++ [.changing cell.value, .changed v]) := by
  rw [setStep, if_neg hne, OnPropertyChanging, invoke_records doSet _ h1]
  show (match OnPropertyChanged doSet { cell with value := v } _ _ with
    | .ok c3 s2 tr2 => SetResult.ok true c3 s2 tr2
    | .err c3 s2 tr2 => .err c3 s2 tr2
    | .fuelOut => .fuelOut) = _
  rw [OnPropertyChanged]
  show (match invoke doSet cell.PropertyChanged { cell with value := v } _ _
      with
    | .ok c3 s2 tr2 => SetResult.ok true c3 s2 tr2
    | .err c3 s2 tr2 => .err c3 s2 tr2
    | .fuelOut => .fuelOut) = _
  rw [hch, invoke_fail_truncates doSet pre hpre]
  simp

/-- C5: the write primitive itself never raises — with observer-only
listeners every write completes normally with a boolean — and the only
failure surface is listener-originated: a listener raising during the
changing (resp. changed) firing makes the error propagate synchronously
out of the write, with the listeners after it in that channel's sequence
not called (the external state carries exactly the effects of the
listeners before the failing one). -/
theorem set_error_surface {T σ : Type} [DecidableEq T] (d : Nat)
    (cell : ObservableProperty T σ) (v : T) (s : σ) (tr : List (Ev T)) :
    (cell.PropertyChanging.all isRecord = true →
      cell.PropertyChanged.all isRecord = true →
      (SetProperty d cell v s tr).isOk = true) ∧
    (∀ pre post : List (Listener T σ),
      cell.PropertyChanging = pre ++ .fail :: post →
      pre.all isRecord = true → cell.value ≠ v →
      SetProperty d cell v s tr =
        .err cell (applyRecords pre cell.value s)
          (tr ++ [.changing cell.value])) ∧
    (∀ pre post : List (Listener T σ),
      cell.PropertyChanging.all isRecord = true →
      cell.PropertyChanged = pre ++ .fail :: post →
      pre.all isRecord = true → cell.value ≠ v →
      SetProperty d cell v s tr =
        .err { cell with value := v }
          (applyRecords pre v
            (applyRecords cell.PropertyChanging cell.value s))
          (tr ++ [.changing cell.value, .changed v])) := by
  refine ⟨fun h1 h2 => ?_, fun pre post hch hpre hne => ?_,
    fun pre post h1 hch hpre hne => ?_⟩
  · by_cases heq : cell.value = v
    · rw [SetProperty_unfold, setStep, if_pos heq]; rfl
    · rw [SetProperty_records d cell v s tr h1 h2 heq]; rfl
  · rw [SetProperty_unfold]
    exact setStep_fail_changing _ cell v s tr pre post hch hpre hne
  · rw [SetProperty_unfold]
    exact setStep_fail_changed _ cell v s tr pre post h1 hch hpre hne

/-- Witness for C5, exercising all three conjuncts: an observer-only
cell completes normally; a cell whose changing channel is one recorder
then a failing listener then a recorder errors out with only the first
recorder's effect; likewise for the changed channel, after the value was
already overwritten. -/
theorem set_error_surface_witness :
    (SetProperty 0
        (⟨3, [], [.record fun _ acc => acc + 1]⟩ :
          ObservableProperty Nat Nat) 4 0 []).isOk = true ∧
    SetProperty 0
      (⟨3, [],
        [.record fun _ acc => acc + 1, .fail,
          .record fun _ acc => acc + 100]⟩ :
        ObservableProperty Nat Nat) 4 0 [] =
      .err
        ⟨3, [],
          [.record fun _ acc => acc + 1, .fail,
            .record fun _ acc => acc + 100]⟩
        1 [.changing 3] ∧
    SetProperty 0
      (⟨3,
        [.record fun _ acc => acc + 1, .fail,
          .record fun _ acc => acc + 100], []⟩ :
        ObservableProperty Nat Nat) 4 0 [] =
      .err
        ⟨4,
          [.record fun _ acc => acc + 1, .fail,
            .record fun _ acc => acc + 100], []⟩
        1 [.changing 3, .changed 4] := by
  refine ⟨(set_error_surface 0 ⟨3, [], [.record fun _ acc => acc + 1]⟩
    4 0 []).1 rfl rfl, ?_, ?_⟩
  · exact (set_error_surface 0
      ⟨3, [],
        [.record fun _ acc => acc + 1, .fail,
          .record fun _ acc => acc + 100]⟩ 4 0 []).2.1
      [.record fun _ acc => acc + 1] [.record fun _ acc => acc + 100]
      rfl rfl (by decide)
  · exact (set_error_surface 0
      ⟨3,
        [.record fun _ acc => acc + 1, .fail,
          .record fun _ acc => acc + 100], []⟩ 4 0 []).2.2
      [.record fun _ acc => acc + 1] [.record fun _ acc => acc + 100]
      rfl rfl rfl (by decide)

/-- The write operation `doSet` preserves the two channel lists on
every normal completion. -/
def preservesChannels {T σ : Type}
    (doSet : ObservableProperty T σ → T → σ → List (Ev T) → SetResult T σ) :
    Prop :=
  ∀ (c : ObservableProperty T σ) (v : T) (s : σ) (tr : List (Ev T))
    (b : Bool) (c2 : ObservableProperty T σ) (s2 : σ) (tr2 : List (Ev T)),
    doSet c v s tr = .ok b c2 s2 tr2 →
    c2.PropertyChanging = c.PropertyChanging ∧
    c2.PropertyChanged = c.PropertyChanged

lemma invoke_ok_channels {T σ : Type}
    (doSet : ObservableProperty T σ → T → σ → List (Ev T) → SetResult T σ)
    (hd : preservesChannels doSet) (ls : List (Listener T σ)) :
    ∀ (c : ObservableProperty T σ) (s : σ) (tr : List (Ev T))
      (c2 : ObservableProperty T σ) (s2 : σ) (tr2 : List (Ev T)),
      invoke doSet ls c s tr = .ok c2 s2 tr2 →
      c2.PropertyChanging = c.PropertyChanging ∧
      c2.PropertyChanged = c.PropertyChanged := by
  induction ls with
  | nil =>
    intro c s tr c2 s2 tr2 h
    cases h
    exact ⟨rfl, rfl⟩
  | cons l rest ih =>
    intro c s tr c2 s2 tr2 h
    cases l with
    | record f => exact ih c (f c.value s) tr c2 s2 tr2 h
    | fail => exact absurd h (by simp [invoke])
    | setCell v =>
      rw [invoke] at h
      cases hm : doSet c v s tr with
      | ok b cm sm trm =>
        rw [hm] at h
        obtain ⟨e1, e2⟩ := hd c v s tr b cm sm trm hm
        obtain ⟨f1, f2⟩ := ih cm sm trm c2 s2 tr2 h
        exact ⟨f1.trans e1, f2.trans e2⟩
      | err cm sm trm => rw [hm] at h; exact absurd h (by simp)
      | fuelOut => rw [hm] at h; exact absurd h (by simp)
    | setCellOnce v armed disarm =>
      rw [invoke] at h
      by_cases ha : armed s = true
      · rw [if_pos ha] at h
        cases hm : doSet c v (disarm s) tr with
        | ok b cm sm trm =>
          rw [hm] at h
          obtain ⟨e1, e2⟩ := hd c v (disarm s) tr b cm sm trm hm
          obtain ⟨f1, f2⟩ := ih cm sm trm c2 s2 tr2 h
          exact ⟨f1.trans e1, f2.trans e2⟩
        | err cm sm trm => rw [hm] at h; exact absurd h (by simp)
        | fuelOut => rw [hm] at h; exact absurd h (by simp)
      · rw [if_neg ha] at h
        exact ih c s tr c2 s2 tr2 h

lemma setStep_ok_channels {T σ : Type} [DecidableEq T]
    (doSet : ObservableProperty T σ → T → σ → List (Ev T) → SetResult T σ)
    (hd : preservesChannels doSet) :
    preservesChannels (setStep doSet) := by
  intro c v s tr b c2 s2 tr2 h
  rw [setStep] at h
  split at h
  · cases h
    exact ⟨rfl, rfl⟩
  · split at h
    · rename_i c1 s1 tr1 h1
      split at h
      · rename_i c3 sf trf h2
        rw [OnPropertyChanging] at h1
        rw [OnPropertyChanged] at h2
        obtain ⟨e1, e2⟩ :=
          invoke_ok_channels doSet hd c.PropertyChanging c s
            (tr ++ [.changing c.value]) c1 s1 tr1 h1
        obtain ⟨g1, g2⟩ :=
          invoke_ok_channels doSet hd
            ({ c1 with value := v } :
              ObservableProperty T σ).PropertyChanged
            { c1 with value := v } s1 (tr1 ++ [.changed v]) c3 sf trf h2
        cases h
        exact ⟨g1.trans e1, g2.trans e2⟩
      · exact absurd h (by simp)
      · exact absurd h (by simp)
    · exact absurd h (by simp)
    · exact absurd h (by simp)

lemma SetProperty_ok_channels {T σ : Type} [DecidableEq T] (d : Nat) :
    preservesChannels
      (SetProperty (T := T) (σ := σ) d) := by
  induction d with
  | zero =>
    intro c v s tr b c2 s2 tr2 h
    rw [SetProperty_unfold] at h
    exact setStep_ok_channels noFuel
      (fun c v s tr b c2 s2 tr2 h => absurd h (by simp [noFuel]))
      c v s tr b c2 s2 tr2 h
  | succ d ih =>
    intro c v s tr b c2 s2 tr2 h
    rw [SetProperty_unfold] at h
    exact setStep_ok_channels (SetProperty d) ih c v s tr b c2 s2 tr2 h

/-- C8: the readers are pure — `get` and `GetValue` just return the
stored value, changing nothing — and every normally completing write,
firing or not, and at any re-entrancy depth, leaves the subscriber
sequences of both channels exactly as they were. -/
theorem get_pure_and_set_preserves_channels {T σ : Type} [DecidableEq T]
    (d : Nat) (cell : ObservableProperty T σ) (v : T) (s : σ)
    (tr : List (Ev T)) (b : Bool) (c2 : ObservableProperty T σ) (s2 : σ)
    (tr2 : List (Ev T)) :
    get cell = cell.value ∧ GetValue cell = cell.value ∧
    (SetProperty d cell v s tr = .ok b c2 s2 tr2 →
      c2.PropertyChanging = cell.PropertyChanging ∧
      c2.PropertyChanged = cell.PropertyChanged) :=
  ⟨rfl, rfl, fun h => SetProperty_ok_channels d cell v s tr b c2 s2 tr2 h⟩

/-- Witness for C8: a cell holding `0` with one changing observer; the
write of `1` completes normally and the resulting cell carries the same
channel lists. -/
theorem get_pure_witness :
    get (⟨0, [], [.record fun _ acc => acc + 1]⟩ :
      ObservableProperty Nat Nat) = 0 ∧
    GetValue (⟨0, [], [.record fun _ acc => acc + 1]⟩ :
      ObservableProperty Nat Nat) = 0 ∧
    ((⟨1, [], [.record fun _ acc => acc + 1]⟩ :
        ObservableProperty Nat Nat).PropertyChanging =
      (⟨0, [], [.record fun _ acc => acc + 1]⟩ :
        ObservableProperty Nat Nat).PropertyChanging ∧
    (⟨1, [], [.record fun _ acc => acc + 1]⟩ :
        ObservableProperty Nat Nat).PropertyChanged =
      (⟨0, [], [.record fun _ acc => acc + 1]⟩ :
        ObservableProperty Nat Nat).PropertyChanged) := by
  have h := get_pure_and_set_preserves_channels 0
    (⟨0, [], [.record fun _ acc => acc + 1]⟩ : ObservableProperty Nat Nat)
    1 0 [] true ⟨1, [], [.record fun _ acc => acc + 1]⟩ 1
    [.changing 0, .changed 1]
  exact ⟨h.1, h.2.1, h.2.2 rfl⟩

/-- A listener that appends the value it observes via `get()` to a
shared ordered log (the log lives beside a one-shot arming flag). -/
def logListener {T : Type} : Listener T (Bool × List T) :=
  .record (fun obs s => (s.1, s.2 ++ [obs]))

/-- The re-entrancy scenario cell: it holds `v1`; its changing channel
carries first a guarded listener that calls `set v3` on the same cell
(once, while the external flag is armed), then a logging observer; its
changed channel carries a logging observer. -/
def reentrantCell {T : Type} (v1 v3 : T) :
    ObservableProperty T (Bool × List T) :=
  { value := v1,
    PropertyChanged := [logListener],
    PropertyChanging :=
      [.setCellOnce v3 Prod.fst (fun s => (false, s.2)), logListener] }

/-- C9: when a changing listener re-entrantly calls `set v3` during an
outer `set v2`, the nested write runs to completion — its own compare,
changing firing (observing `v1`), mutation to `v3`, and changed firing
(observing `v3`) — before control returns to the outer invocation: the
trace shows the nested changing/changed pair strictly between the outer
changing event and the outer changed event, the outer changing
listener that runs after the re-entrant one already observes `v3`, the
outer write then overwrites to `v2`, and the outer changed listener
observes `v2` (the log reads `[v1, v3, v3, v2]`). -/
theorem reentrant_set_runs_to_completion {T : Type} [DecidableEq T]
    (v1 v2 v3 : T) (h12 : v1 ≠ v2) (h13 : v1 ≠ v3) :
    SetProperty 1 (reentrantCell v1 v3) v2 (true, []) [] =
      .ok true { reentrantCell v1 v3 with value := v2 }
        (false, [v1, v3, v3, v2])
        [.changing v1, .changing v1, .changed v3, .changed v2] := by
  simp [reentrantCell, logListener, SetProperty, setStep,
    OnPropertyChanging, OnPropertyChanged, invoke, h12, h13]

/-- Witness for C9: the scenario at `v1 = 0`, `v2 = 1`, `v3 = 2`. -/
theorem reentrant_set_witness :
    SetProperty 1 (reentrantCell 0 2) 1 (true, ([] : List Nat)) [] =
      .ok true { reentrantCell 0 2 with value := 1 }
        (false, [0, 2, 2, 1])
        [.changing 0, .changing 0, .changed 2, .changed 1] :=
  reentrant_set_runs_to_completion 0 1 2 (by decide) (by decide)

theorem listeners_order_witness :
    SetProperty 0
      { value := 0, PropertyChanged := [],
        PropertyChanging :=
          List.foldl Event.add []
            (([10, 20].map tagListener) : List (Listener Nat (List Nat))) }
      1 [] [] =
      .ok true
        { value := 1, PropertyChanged := [],
          PropertyChanging :=
            List.foldl Event.add [] ([10, 20].map tagListener) }
        [10, 20] [.changing 0, .changed 1] :=
  listeners_invoked_in_subscription_order 0 [10, 20] 0 1 [] [] (by decide)

end Mvvm
